import Mathlib

/-!
# HDMIsupply: v210 to RGB half-float conversion and instance coordination

A shallow embedding of `src/HDMIsupply.cpp`.

* Machine `int`s are `Int`; C division `/` is `Int.tdiv` (truncation).  The plug-in only
  runs at 1920x1080, where the row and chunk arithmetic fits in 32 bits; the product of a
  row by the stride of the host buffer is wrapped to 32 bits.
* `float` arithmetic is carried out exactly, in `ℚ`; the float-to-half encoders
  (`_cvtss_sh` and OpenEXR's `half`) are parameters of the two kernels.
* Source memory is a function giving the `int` loaded at a byte offset from `from`;
  destination writes are a list of stores at byte offsets from `to->Buffer`.
* Shared-memory segments, the control structs and the DeckLink device are explicit state.
-/

namespace HDMIsupply

/-! ## Conversion kernel: `threadProcF16C` and `threadProc` -/

/-- The C expression `(x >> k) & 0x000003ff` on a signed `int`: an arithmetic right shift
followed by a bitwise and with the 10-bit mask. -/
def field (x : Int) (k : Nat) : Int := Int.land (x >>> k) 0x000003ff

/-- The twelve samples unpacked from one chunk (lines 140-151 and 245-256), as the
integers they are before the conversion to `float`. -/
structure Samples where
  y0 : Int
  y1 : Int
  y2 : Int
  y3 : Int
  y4 : Int
  y5 : Int
  cr0 : Int
  cr2 : Int
  cr4 : Int
  cb0 : Int
  cb2 : Int
  cb4 : Int
deriving DecidableEq

/-- Unpacking of the words `v210[0] .. v210[3]` (lines 140-151 and 245-256). -/
def unpack (v0 v1 v2 v3 : Int) : Samples where
  y0 := field v0 10
  y1 := field v1 0
  y2 := field v1 20
  y3 := field v2 10
  y4 := field v3 0
  y5 := field v3 20
  cr0 := field v0 20
  cr2 := field v2 0
  cr4 := field v3 10
  cb0 := field v0 0
  cb2 := field v1 10
  cb4 := field v2 20

/-- The "next" chroma samples `(cr6, cb6)` (lines 154-162 and 259-267).  `v210 k` is the
word `v210[k]` of the current chunk pointer; `v210 4` is only evaluated in the
second branch. -/
def nextChroma (w chunk : Int) (s : Samples) (v210 : Int → Int) : Int × Int :=
  if chunk = Int.tdiv w 6 - 1 then (s.cr4, s.cb4)
  else (field (v210 4) 20, field (v210 4) 0)

/-- Luma offset selected by `SparkBoolean16.Value` (lines 126-132 and 231-237). -/
def yoffset (value : Int) : ℚ := if value ≠ 0 then 0 else 64

/-- Luma gain selected by `SparkBoolean16.Value` (lines 126-132 and 231-237). -/
def ygain (value : Int) : ℚ := if value ≠ 0 then 1 else 1.164

/-- The eighteen values `rgb[0] .. rgb[17]` of one chunk before the half-float encoding
(lines 164-211 and 269-316), in exact arithmetic. -/
def chunkRGB (yoffset ygain : ℚ) (s : Samples) (n : Int × Int) : List ℚ :=
  let y0 : ℚ := s.y0 - yoffset
  let y1 : ℚ := s.y1 - yoffset
  let y2 : ℚ := s.y2 - yoffset
  let y3 : ℚ := s.y3 - yoffset
  let y4 : ℚ := s.y4 - yoffset
  let y5 : ℚ := s.y5 - yoffset
  let cr0 : ℚ := s.cr0 - 512
  let cr2 : ℚ := s.cr2 - 512
  let cr4 : ℚ := s.cr4 - 512
  let cr6 : ℚ := n.1 - 512
  let cb0 : ℚ := s.cb0 - 512
  let cb2 : ℚ := s.cb2 - 512
  let cb4 : ℚ := s.cb4 - 512
  let cb6 : ℚ := n.2 - 512
  let cr1 : ℚ := (cr0 + cr2) * 0.5
  let cr3 : ℚ := (cr2 + cr4) * 0.5
  let cr5 : ℚ := (cr4 + cr6) * 0.5
  let cb1 : ℚ := (cb0 + cb2) * 0.5
  let cb3 : ℚ := (cb2 + cb4) * 0.5
  let cb5 : ℚ := (cb4 + cb6) * 0.5
  [ (y0 * ygain + cb0 * 0.000 + cr0 * 1.793) / 1023,
    (y0 * ygain + cb0 * -0.213 + cr0 * -0.533) / 1023,
    (y0 * ygain + cb0 * 2.112 + cr0 * 0.000) / 1023,
    (y1 * ygain + cb1 * 0.000 + cr1 * 1.793) / 1023,
    (y1 * ygain + cb1 * -0.213 + cr1 * -0.533) / 1023,
    (y1 * ygain + cb1 * 2.112 + cr1 * 0.000) / 1023,
    (y2 * ygain + cb2 * 0.000 + cr2 * 1.793) / 1023,
    (y2 * ygain + cb2 * -0.213 + cr2 * -0.533) / 1023,
    (y2 * ygain + cb2 * 2.112 + cr2 * 0.000) / 1023,
    (y3 * ygain + cb3 * 0.000 + cr3 * 1.793) / 1023,
    (y3 * ygain + cb3 * -0.213 + cr3 * -0.533) / 1023,
    (y3 * ygain + cb3 * 2.112 + cr3 * 0.000) / 1023,
    (y4 * ygain + cb4 * 0.000 + cr4 * 1.793) / 1023,
    (y4 * ygain + cb4 * -0.213 + cr4 * -0.533) / 1023,
    (y4 * ygain + cb4 * 2.112 + cr4 * 0.000) / 1023,
    (y5 * ygain + cb5 * 0.000 + cr5 * 1.793) / 1023,
    (y5 * ygain + cb5 * -0.213 + cr5 * -0.533) / 1023,
    (y5 * ygain + cb5 * 2.112 + cr5 * 0.000) / 1023 ]

/-- One 16-bit store into the destination: byte offset from `to->Buffer` and the
encoded value. -/
structure Store (α : Type) where
  off : Int
  val : α
deriving DecidableEq

/-- The stores `rgb[0] = enc v0; rgb[1] = enc v1; ...` through an `unsigned short *`
(or `half *`) at byte offset `rgb`: consecutive elements are two bytes apart. -/
def storeFrom {α : Type} (enc : ℚ → α) (rgb : Int) : List ℚ → List (Store α)
  | [] => []
  | v :: vs => ⟨rgb, enc v⟩ :: storeFrom enc (rgb + 2) vs

/-- The samples unpacked from the chunk at byte offset `v210`: the words `v210[0]`,
`v210[1]`, `v210[2]`, `v210[3]` of an `int *` (lines 140-151 and 245-256). -/
def loadSamples (src : Int → Int) (v210 : Int) : Samples :=
  unpack (src v210) (src (v210 + 4)) (src (v210 + 8)) (src (v210 + 12))

/-- The pair `(cr6, cb6)` of the chunk at byte offset `v210` (lines 154-162 and 259-267). -/
def loadNext (w chunk : Int) (src : Int → Int) (v210 : Int) : Int × Int :=
  nextChroma w chunk (loadSamples src v210) fun k => src (v210 + 4 * k)

/-- The body of the chunk loop (lines 139-211 and 244-316): `v210` and `rgb` are the byte
offsets of the two running pointers, `src` gives the `int` loaded at a byte offset. -/
def convertChunk {α : Type} (enc : ℚ → α) (yoffset ygain : ℚ) (w chunk : Int)
    (src : Int → Int) (v210 rgb : Int) : List (Store α) :=
  storeFrom enc rgb (chunkRGB yoffset ygain (loadSamples src v210) (loadNext w chunk src v210))

/-- The byte offsets loaded by the body of the chunk loop: `v210[0] .. v210[3]`, and
`v210[4]` unless the chunk is the last of its row (lines 140-162 and 245-267). -/
def chunkReads (w chunk v210 : Int) : List Int :=
  [v210, v210 + 4, v210 + 8, v210 + 12] ++
    (if chunk = Int.tdiv w 6 - 1 then [] else [v210 + 4 * 4])

/-- The loop `for(chunk = ...; chunk < w / 6; chunk++) { ...; v210 += 4; rgb += 6 * 3; }`
with `n` iterations left (lines 138-216 and 243-321): the `int *` advances by 16 bytes
and the 16-bit destination pointer by 36 bytes. -/
def chunkLoop {α : Type} (enc : ℚ → α) (yoffset ygain : ℚ) (w : Int) (src : Int → Int) :
    Nat → Int → Int → Int → List (Store α)
  | 0, _, _, _ => []
  | n + 1, chunk, v210, rgb =>
    convertChunk enc yoffset ygain w chunk src v210 rgb ++
      chunkLoop enc yoffset ygain w src n (chunk + 1) (v210 + 4 * 4) (rgb + 2 * (6 * 3))

/-- The byte offsets loaded by the chunk loop with `n` iterations left. -/
def chunkLoopReads (w : Int) : Nat → Int → Int → List Int
  | 0, _, _ => []
  | n + 1, chunk, v210 => chunkReads w chunk v210 ++ chunkLoopReads w n (chunk + 1) (v210 + 4 * 4)

/-- A value wrapped to a signed 32-bit `int`. -/
def wrap32 (x : Int) : Int := (x + 2147483648) % 4294967296 - 2147483648

/-- Byte offset of the destination row: `(char *)to->Buffer + row * to->Stride`
(lines 135 and 240).  The product of the `int` row by the stride is computed in 32 bits. -/
def rgbRow (stride row : Int) : Int := wrap32 (row * stride)

/-- Byte offset of the packed source row:
`(from + v210rowbytes * h) - (row + 1) * v210rowbytes` (lines 136 and 241). -/
def v210Row (v210rowbytes h row : Int) : Int := v210rowbytes * h - (row + 1) * v210rowbytes

/-- The body of the row loop (lines 135-216 and 240-321). -/
def convertRow {α : Type} (enc : ℚ → α) (yoffset ygain : ℚ) (w h v210rowbytes : Int)
    (src : Int → Int) (stride row : Int) : List (Store α) :=
  chunkLoop enc yoffset ygain w src (Int.toNat (Int.tdiv w 6)) 0
    (v210Row v210rowbytes h row) (rgbRow stride row)

/-- The byte offsets loaded while converting one row. -/
def rowReads (w h v210rowbytes row : Int) : List Int :=
  chunkLoopReads w (Int.toNat (Int.tdiv w 6)) 0 (v210Row v210rowbytes h row)

/-- The loop `for(row = ...; row < rowstart + rowcount; row++)` with `n` iterations left
(lines 134-217 and 239-322). -/
def rowLoop {α : Type} (enc : ℚ → α) (yoffset ygain : ℚ) (w h v210rowbytes : Int)
    (src : Int → Int) (stride : Int) : Nat → Int → List (Store α)
  | 0, _ => []
  | n + 1, row =>
    convertRow enc yoffset ygain w h v210rowbytes src stride row ++
      rowLoop enc yoffset ygain w h v210rowbytes src stride n (row + 1)

/-- First row of a worker: `rowstart = thread * (h / threadcount)` (lines 120-121 and
225-226). -/
def rowstart (h threadcount thread : Int) : Int := thread * Int.tdiv h threadcount

/-- Number of rows of a worker: `h / threadcount`, plus the remainder
`h - rowcount * threadcount` for the last thread (lines 120-124 and 225-229). -/
def rowcount (h threadcount thread : Int) : Int :=
  let rowcount := Int.tdiv h threadcount
  if thread = threadcount - 1 then rowcount + (h - rowcount * threadcount) else rowcount

/-- The hardware path `threadProcF16C` (lines 116-218), for the worker whose index is
`thread`; `cvtss_sh` is the float-to-half instruction `_cvtss_sh(x, 0)`.  The index is
the source's `round(threadcount * (float)offset / (w * h))`, computed from the offset
reported by the host's `sparkMpInfo`. -/
def threadProcF16C {α : Type} (cvtss_sh : ℚ → α) (threadcount w h v210rowbytes value : Int)
    (thread : Int) (src : Int → Int) (stride : Int) : List (Store α) :=
  rowLoop cvtss_sh (yoffset value) (ygain value) w h v210rowbytes src stride
    (Int.toNat (rowcount h threadcount thread)) (rowstart h threadcount thread)

/-- The software path `threadProc` (lines 221-323), for the worker whose index is
`thread`; `half` is the float-to-half conversion of OpenEXR's `half` class. -/
def threadProc {α : Type} (half : ℚ → α) (threadcount w h v210rowbytes value : Int)
    (thread : Int) (src : Int → Int) (stride : Int) : List (Store α) :=
  rowLoop half (yoffset value) (ygain value) w h v210rowbytes src stride
    (Int.toNat (rowcount h threadcount thread)) (rowstart h threadcount thread)

/-- Row size in bytes, `v210rowbytes = w * 8 / 3` (line 427). -/
def v210rowbytes (w : Int) : Int := Int.tdiv (w * 8) 3

/-- Modelled from the spec: the host's work-distribution primitive `sparkMpFork`, which
is not part of the repository.  It invokes the worker once per worker index
`0 .. threadcount - 1`; the stores of the workers are collected in index order. -/
def sparkMpFork {β : Type} (threadcount : Int) (worker : Int → List β) : List β :=
  (List.range (Int.toNat threadcount)).flatMap fun t => worker t

/-! ## Instance coordination: `SparkInitialise`, `startHDMI`, `stopHDMI`, `SparkProcess` -/

/-- Calls made on the DeckLink API. -/
inductive DevCall where
  | Next
  | QueryInterface
  | EnableVideoInput
  | SetCallback
  | StartStreams
  | StopStreams
  | DisableVideoInput
deriving DecidableEq

/-- The two conversion workers handed to `sparkMpFork`. -/
inductive Worker where
  | threadProcF16C
  | threadProc
deriving DecidableEq

/-- The state shared by the instances of one host process: the named shared-memory
segments (the pointer-sized word each holds), the `streaming` field of the control
struct at each address, the number of control structs allocated so far, the calls made
on the DeckLink device, the messages passed to `say` and `err`, and the workers forked. -/
structure World where
  shm : String → Option Nat
  streaming : Nat → Bool
  allocated : Nat
  device : List DevCall
  log : List String
  forks : List Worker

/-- The globals of one instance (lines 44-53); the address 0 is `NULL`. -/
structure Inst where
  dlin : Bool
  threadcount : Int
  w : Int
  h : Int
  v210rowbytes : Int
  f16support : Bool
  shmfile : Option String
  cbctrl : Nat

/-- The globals of an instance before `SparkInitialise`. -/
def Inst.fresh : Inst where
  dlin := false
  threadcount := 0
  w := 0
  h := 0
  v210rowbytes := 0
  f16support := false
  shmfile := none
  cbctrl := 0

/-- What the environment answers to one instance: whether `shm_open(O_CREAT | O_RDWR)`
succeeds, whether `mmap` of a valid descriptor succeeds, whether `dli->Next`,
`EnableVideoInput` and `StartStreams` return `S_OK`, and the F16C bit of `__cpuid`. -/
structure Env where
  shmCreate : Bool
  mmap : Bool
  next : Bool
  enable : Bool
  start : Bool
  f16c : Bool

/-- The fields of `SparkInfoStruct` that the source reads. -/
structure SparkInfoStruct where
  NumProcessors : Int
  FrameWidth : Int
  FrameHeight : Int

/-- A call of `say` (lines 69-77) or `err` (lines 80-90), recorded by the first string of
its argument. -/
def World.say (W : World) (msg : String) : World := { W with log := W.log ++ [msg] }

/-- `stopHDMI` (lines 326-339). -/
def stopHDMI (g : Inst) (W : World) : Inst × World :=
  let W := W.say "stopping streams..."
  let W := if g.cbctrl ≠ 0 then { W with streaming := Function.update W.streaming g.cbctrl false }
    else W
  let W := if g.dlin then
      ({ W with device := W.device ++ [DevCall.StopStreams, DevCall.DisableVideoInput] }).say
        "streams stopped and input disabled"
    else W
  match g.shmfile with
  | some name =>
    ({ g with shmfile := none }, ({ W with shm := Function.update W.shm name none }).say
      "shm file removed")
  | none => (g, W)

/-- `startHDMI` (lines 342-402).  `calloc` returns the next unused address.
`shm_open(O_CREAT | O_RDWR)` creates the segment when it is absent and `ftruncate` gives
it a zeroed pointer-sized word; `mmap` fails on the descriptor -1. -/
def startHDMI (e : Env) (g : Inst) (W : World) : Inst × World :=
  let W := W.say "starting new instance"
  let p := W.allocated + 1
  let g := { g with cbctrl := p }
  let W := { W with allocated := p, streaming := Function.update W.streaming p false }
  match (if e.shmCreate then g.shmfile else none) with
  | none =>
    -- shmfd == -1: ftruncate and mmap fail
    (g, (W.say "new instance shm_open() returned: ").say "new instance shm mmap() returned: ")
  | some name =>
    let W := { W with shm := Function.update W.shm name (some ((W.shm name).getD 0)) }
    if !e.mmap then (g, W.say "new instance shm mmap() returned: ")
    else
      let W := { W with shm := Function.update W.shm name (some g.cbctrl) }
      let W := { W with device := W.device ++ [DevCall.Next] }
      if !e.next then stopHDMI g (W.say "failed to find DeckLink device!")
      else
        let g := { g with dlin := true }
        let W := { W with device := W.device ++ [DevCall.QueryInterface, DevCall.EnableVideoInput] }
        if !e.enable then stopHDMI g (W.say "failed to enable DeckLink video input!")
        else
          let W := { W with device := W.device ++ [DevCall.SetCallback, DevCall.StartStreams] }
          if !e.start then stopHDMI g (W.say "failed to start DeckLink streams!")
          else
            (g, ({ W with streaming := Function.update W.streaming g.cbctrl true }).say
              "input started at ")

/-- Name of the shared-memory segment, `"HDMIsupply" << getpid()` (lines 430-432). -/
def shmName (pid : Nat) : String := "HDMIsupply" ++ toString pid

/-- `SparkInitialise` (lines 405-454).  `shm_open(O_RDONLY)` succeeds exactly when the
segment exists. -/
def SparkInitialise (si : SparkInfoStruct) (pid : Nat) (e : Env) (g : Inst) (W : World) :
    Inst × World :=
  let W := W.say "initialising"
  let g := { g with threadcount := si.NumProcessors }
  let W := W.say "using "
  let g := if e.f16c then { g with f16support := true } else g
  let W := if g.f16support then W.say "CPU supports F16C hardware half-float conversion"
    else W.say "old CPU, does not support F16C hardware half-float conversion"
  let g := { g with w := si.FrameWidth, h := si.FrameHeight }
  let W := W.say "resolution is "
  if g.w ≠ 1920 ∨ g.h ≠ 1080 then (g, W.say "resolution is not 1920x1080, cannot start!")
  else
    let g := { g with v210rowbytes := v210rowbytes g.w }
    let g := { g with shmfile := some (shmName pid) }
    let W := W.say "using shm file "
    match W.shm (shmName pid) with
    | none => startHDMI e g (W.say "shm_open() returned ")
    | some c =>
      let W := W.say "found existing instance"
      if !e.mmap then (g, W.say "shm mmap() returned ")
      else ({ g with cbctrl := c }, W.say "found pointer to control struct at ")

/-- `sparkBuf` (lines 93-103): `host` is what `sparkMemGetBuffer` answers, `none` when it
fails and the buffer's `BufState` otherwise; `MEMBUF_LOCKED` is the flag of `spark.h`. -/
def sparkBuf (MEMBUF_LOCKED : Nat) (host : Option Nat) (W : World) : Int × World :=
  match host with
  | none => (0, W.say "sparkMemGetBuffer() failed: ")
  | some BufState =>
    if BufState &&& MEMBUF_LOCKED = 0 then (0, W.say "spark buffer ") else (1, W)

/-- `SparkProcess` (lines 457-501) without its timing report; `none` is the dereference
of a `NULL` control struct. -/
def SparkProcess (MEMBUF_LOCKED : Nat) (si : SparkInfoStruct) (pid : Nat) (e : Env)
    (host : Option Nat) (g : Inst) (W : World) : Option (Inst × World) :=
  if g.w ≠ 1920 ∨ g.h ≠ 1080 then
    some (g, W.say "resolution is not 1920x1080, cannot process!")
  else if g.cbctrl = 0 then none
  else
    let r := if !W.streaming g.cbctrl then
        SparkInitialise si pid e g (W.say "streams have stopped, starting again...")
      else (g, W)
    -- `sparkBuf(1, &buf);` the value it returns is not used
    let W := (sparkBuf MEMBUF_LOCKED host r.2).2
    if r.1.cbctrl = 0 then none
    else
      some (r.1, { W with forks := W.forks ++
        [if r.1.f16support then Worker.threadProcF16C else Worker.threadProc] })

/-- The instances of one host process running `SparkInitialise` one after the other, each
from fresh globals and with its own answers from the environment. -/
def initAll (si : SparkInfoStruct) (pid : Nat) : List Env → World → List Inst × World
  | [], W => ([], W)
  | e :: es, W =>
    let r := SparkInitialise si pid e Inst.fresh W
    let rs := initAll si pid es r.2
    (r.1 :: rs.1, rs.2)

/-- A host process in which nothing has happened yet. -/
def World.init : World where
  shm := fun _ => none
  streaming := fun _ => false
  allocated := 0
  device := []
  log := []
  forks := []

/-- Answers of an environment in which every call succeeds. -/
def Env.ok : Env where
  shmCreate := true
  mmap := true
  next := true
  enable := true
  start := true
  f16c := true

/-- The twelve samples of a chunk in the order of their declaration. -/
def Samples.toList (s : Samples) : List Int :=
  [s.y0, s.y1, s.y2, s.y3, s.y4, s.y5, s.cr0, s.cr2, s.cr4, s.cb0, s.cb2, s.cb4]

/-- The row range `[rowstart, rowstart + rowcount)` of a worker. -/
def inSlice (h threadcount thread row : Int) : Prop :=
  rowstart h threadcount thread ≤ row ∧
    row < rowstart h threadcount thread + rowcount h threadcount thread

instance (h threadcount thread row : Int) : Decidable (inSlice h threadcount thread row) := by
  unfold inSlice; infer_instance

/-- The chunk in which all six luma samples are `Y`, all chroma samples `Cb` and `Cr`. -/
def solid (Y Cb Cr : Int) : Samples where
  y0 := Y
  y1 := Y
  y2 := Y
  y3 := Y
  y4 := Y
  y5 := Y
  cr0 := Cr
  cr2 := Cr
  cr4 := Cr
  cb0 := Cb
  cb2 := Cb
  cb4 := Cb

/-- The limited-range Rec.709 transform of the colour `(Y, Cb, Cr)` as the specification
writes it, for the channel `c` (0 is R, 1 is G, anything else B). -/
def specSolidRGB (Y Cb Cr : ℚ) (c : Int) : ℚ :=
  if c = 0 then (1.164 * (Y - 64) + 1.793 * (Cr - 512)) / 1023
  else if c = 1 then (1.164 * (Y - 64) - 0.213 * (Cb - 512) - 0.533 * (Cr - 512)) / 1023
  else (1.164 * (Y - 64) + 2.112 * (Cb - 512)) / 1023

/-- The luma sample behind each of the eighteen values `rgb[0] .. rgb[17]` of a chunk. -/
def lumaOf (s : Samples) : List ℚ :=
  [s.y0, s.y0, s.y0, s.y1, s.y1, s.y1, s.y2, s.y2, s.y2,
    s.y3, s.y3, s.y3, s.y4, s.y4, s.y4, s.y5, s.y5, s.y5]

theorem ldiff_mask (m : Nat) : Nat.ldiff 1023 m = 1023 - m % 1024 := by
  apply Nat.eq_of_testBit_eq
  intro i
  have h1 : (1023 : Nat) = 2 ^ 10 - 1 := by norm_num
  have h2 : 1023 - m % 1024 = 2 ^ 10 - (m % 2 ^ 10 + 1) := by norm_num; omega
  have h3 : m % 2 ^ 10 < 2 ^ 10 := Nat.mod_lt _ (by norm_num)
  rw [Nat.testBit_ldiff, h2, Nat.testBit_two_pow_sub_succ h3, Nat.testBit_mod_two_pow, h1,
    Nat.testBit_two_pow_sub_one]
  cases decide (i < 10) <;> cases m.testBit i <;> rfl

theorem land_mask (y : Int) : Int.land y 0x000003ff = y % 1024 := by
  cases y with
  | ofNat m =>
    show ((Nat.land m 1023 : Nat) : Int) = (m : Int) % 1024
    have := Nat.and_pow_two_sub_one_eq_mod m 10
    norm_num at this
    have h : Nat.land m 1023 = m % 1024 := this
    rw [h]; norm_cast
  | negSucc m =>
    show ((Nat.ldiff 1023 m : Nat) : Int) = Int.negSucc m % 1024
    rw [ldiff_mask, Int.negSucc_emod m (by norm_num)]
    have := Nat.mod_lt m (show 0 < 1024 by norm_num)
    omega

/-- A field is the base-1024 digit of the word at the shifted position. -/
theorem field_eq (x : Int) (k : Nat) : field x k = (x / 2 ^ k) % 1024 := by
  unfold field
  rw [land_mask, Int.shiftRight_eq_div_pow]
  norm_cast

theorem field_zero (x : Int) : field x 0 = x % 1024 := by
  rw [field_eq]; norm_num

theorem field_ten (x : Int) : field x 10 = (x / 1024) % 1024 := by
  rw [field_eq]; norm_num

theorem field_twenty (x : Int) : field x 20 = (x / 1048576) % 1024 := by
  rw [field_eq]; norm_num

/-- The three fields of a word determine, and are determined by, its bits 0-29. -/
theorem fields_iff (x y : Int) :
    (field x 0 = field y 0 ∧ field x 10 = field y 10 ∧ field x 20 = field y 20) ↔
      x % 2 ^ 30 = y % 2 ^ 30 := by
  rw [field_zero, field_ten, field_twenty, field_zero, field_ten, field_twenty]
  norm_num
  constructor
  · rintro ⟨h0, h1, h2⟩; omega
  · intro h; refine ⟨?_, ?_, ?_⟩ <;> omega

theorem field_range (x : Int) (k : Nat) : 0 ≤ field x k ∧ field x k ≤ 1023 := by
  rw [field_eq]
  have h1 := Int.emod_nonneg (x / 2 ^ k) (show (1024 : Int) ≠ 0 by norm_num)
  have h2 := Int.emod_lt_of_pos (x / 2 ^ k) (show (0 : Int) < 1024 by norm_num)
  omega

/-- The three fields of a word rebuild its bits 0-29. -/
theorem fields_rebuild (x : Int) :
    x % 2 ^ 30 = field x 0 + 2 ^ 10 * field x 10 + 2 ^ 20 * field x 20 := by
  rw [field_zero, field_ten, field_twenty]
  norm_num
  omega

theorem unpack_eq_iff (v0 v1 v2 v3 u0 u1 u2 u3 : Int) :
    unpack v0 v1 v2 v3 = unpack u0 u1 u2 u3 ↔
      (v0 % 2 ^ 30 = u0 % 2 ^ 30 ∧ v1 % 2 ^ 30 = u1 % 2 ^ 30 ∧
        v2 % 2 ^ 30 = u2 % 2 ^ 30 ∧ v3 % 2 ^ 30 = u3 % 2 ^ 30) := by
  rw [← fields_iff v0 u0, ← fields_iff v1 u1, ← fields_iff v2 u2, ← fields_iff v3 u3]
  simp only [unpack, Samples.mk.injEq]
  tauto

/-- C10: for any four words, each of the twelve unpacked samples lies in [0, 1023]; the
three fields taken from a word are its bits 0-9, 10-19 and 20-29, so that they rebuild
its bits 0-29 (the twelve bit ranges are disjoint and cover them); adding any multiple
of 2^30 to a word (changing bits 30 and above) leaves the samples unchanged; and two
chunks unpack to the same samples exactly when they agree on bits 0-29 of each word. -/
theorem unpack_range_lossless (v0 v1 v2 v3 u0 u1 u2 u3 : Int) :
    (∀ x ∈ (unpack v0 v1 v2 v3).toList, 0 ≤ x ∧ x ≤ 1023) ∧
    (v0 % 2 ^ 30 = (unpack v0 v1 v2 v3).cb0 + 2 ^ 10 * (unpack v0 v1 v2 v3).y0 +
        2 ^ 20 * (unpack v0 v1 v2 v3).cr0 ∧
      v1 % 2 ^ 30 = (unpack v0 v1 v2 v3).y1 + 2 ^ 10 * (unpack v0 v1 v2 v3).cb2 +
        2 ^ 20 * (unpack v0 v1 v2 v3).y2 ∧
      v2 % 2 ^ 30 = (unpack v0 v1 v2 v3).cr2 + 2 ^ 10 * (unpack v0 v1 v2 v3).y3 +
        2 ^ 20 * (unpack v0 v1 v2 v3).cb4 ∧
      v3 % 2 ^ 30 = (unpack v0 v1 v2 v3).y4 + 2 ^ 10 * (unpack v0 v1 v2 v3).cr4 +
        2 ^ 20 * (unpack v0 v1 v2 v3).y5) ∧
    (∀ a b c d : Int,
      unpack (v0 + 2 ^ 30 * a) (v1 + 2 ^ 30 * b) (v2 + 2 ^ 30 * c) (v3 + 2 ^ 30 * d) =
        unpack v0 v1 v2 v3) ∧
    (unpack v0 v1 v2 v3 = unpack u0 u1 u2 u3 ↔
      (v0 % 2 ^ 30 = u0 % 2 ^ 30 ∧ v1 % 2 ^ 30 = u1 % 2 ^ 30 ∧
        v2 % 2 ^ 30 = u2 % 2 ^ 30 ∧ v3 % 2 ^ 30 = u3 % 2 ^ 30)) := by
  refine ⟨?_, ⟨?_, ?_, ?_, ?_⟩, ?_, unpack_eq_iff _ _ _ _ _ _ _ _⟩
  · intro x hx
    simp only [Samples.toList, unpack, List.mem_cons, List.mem_singleton, List.mem_nil_iff,
      or_false] at hx
    rcases hx with h | h | h | h | h | h | h | h | h | h | h | h <;> rw [h] <;>
      exact field_range _ _
  · exact fields_rebuild v0
  · exact fields_rebuild v1
  · exact fields_rebuild v2
  · exact fields_rebuild v3
  · intro a b c d
    rw [unpack_eq_iff]
    refine ⟨?_, ?_, ?_, ?_⟩ <;> simp [Int.add_mul_emod_self_left]

/-! ## Row ranges -/

theorem tdiv_facts (H T : Int) (hH : 0 ≤ H) (hT : 1 ≤ T) :
    0 ≤ Int.tdiv H T ∧ Int.tdiv H T * T ≤ H ∧ H < Int.tdiv H T * T + T := by
  rw [Int.tdiv_eq_ediv hH (by omega)]
  have h1 := Int.ediv_nonneg hH (show (0 : Int) ≤ T by omega)
  have h2 := Int.emod_add_ediv H T
  have h3 := Int.emod_nonneg H (show T ≠ 0 by omega)
  have h4 := Int.emod_lt_of_pos H (show 0 < T by omega)
  refine ⟨h1, ?_, ?_⟩ <;> nlinarith

theorem inSlice_iff (H T t r : Int) :
    inSlice H T t r ↔
      (t * Int.tdiv H T ≤ r ∧
        r < t * Int.tdiv H T +
          (if t = T - 1 then Int.tdiv H T + (H - Int.tdiv H T * T) else Int.tdiv H T)) := by
  simp [inSlice, rowstart, rowcount]

theorem slice_subset (H T t r : Int) (hH : 0 ≤ H) (hT : 1 ≤ T) (h0 : 0 ≤ t) (h1 : t < T)
    (hr : inSlice H T t r) : 0 ≤ r ∧ r < H := by
  rw [inSlice_iff] at hr
  obtain ⟨hq, hle, _⟩ := tdiv_facts H T hH hT
  obtain ⟨ha, hb⟩ := hr
  have hm : 0 ≤ t * Int.tdiv H T := mul_nonneg h0 hq
  refine ⟨by omega, ?_⟩
  split_ifs at hb with hl
  · subst hl; nlinarith
  · have h2 : t + 1 ≤ T - 1 := by omega
    have h3 : (t + 1) * Int.tdiv H T ≤ (T - 1) * Int.tdiv H T :=
      mul_le_mul_of_nonneg_right h2 hq
    nlinarith

theorem slice_disjoint (H T t u r : Int) (hH : 0 ≤ H) (hT : 1 ≤ T)
    (hu : u < T) (htu : t < u) (hr : inSlice H T t r) : ¬ inSlice H T u r := by
  intro hr2
  rw [inSlice_iff] at hr hr2
  obtain ⟨hq, _, _⟩ := tdiv_facts H T hH hT
  have hne : t ≠ T - 1 := by omega
  rw [if_neg hne] at hr
  have h3 : (t + 1) * Int.tdiv H T ≤ u * Int.tdiv H T :=
    mul_le_mul_of_nonneg_right (by omega) hq
  nlinarith [hr.2, hr2.1]

theorem slice_cover (H T r : Int) (hH : 0 ≤ H) (hT : 1 ≤ T) (h0 : 0 ≤ r) (h1 : r < H) :
    ∃ t, 0 ≤ t ∧ t < T ∧ inSlice H T t r := by
  obtain ⟨hq, hle, hlt⟩ := tdiv_facts H T hH hT
  by_cases hc : (T - 1) * Int.tdiv H T ≤ r
  · refine ⟨T - 1, by omega, by omega, ?_⟩
    rw [inSlice_iff, if_pos rfl]
    refine ⟨hc, ?_⟩
    nlinarith
  · have hc2 : r < (T - 1) * Int.tdiv H T := not_le.mp hc
    have hqpos : 0 < Int.tdiv H T := by
      rcases hq.lt_or_eq with h | h
      · exact h
      · rw [← h] at hc2; simp at hc2; omega
    have e1 := Int.emod_add_ediv r (Int.tdiv H T)
    have e2 := Int.emod_nonneg r (show Int.tdiv H T ≠ 0 by omega)
    have e3 := Int.emod_lt_of_pos r hqpos
    have e4 := Int.ediv_nonneg h0 hq
    have hlt2 : r / Int.tdiv H T < T - 1 := by
      by_contra hge
      have hge2 : T - 1 ≤ r / Int.tdiv H T := not_lt.mp hge
      have := mul_le_mul_of_nonneg_right hge2 hq
      nlinarith
    refine ⟨r / Int.tdiv H T, e4, by omega, ?_⟩
    rw [inSlice_iff, if_neg (by omega)]
    constructor <;> nlinarith

/-- C1: for every height `H ≥ 0` and thread count `T ≥ 1`, the workers `0 ≤ t < T` get
`rowstart = t * (H / T)` and `rowcount = H / T`, the last one
`H / T + (H - (H / T) * T)`; the ranges `[rowstart, rowstart + rowcount)` of two
different workers are disjoint, and a row lies in `[0, H)` exactly when it lies in the
range of some worker.  `threadProcF16C` and `threadProc` both loop over this range. -/
theorem row_coverage (H T : Int) (hH : 0 ≤ H) (hT : 1 ≤ T) :
    (∀ t, 0 ≤ t → t < T →
      rowstart H T t = t * (H / T) ∧
      rowcount H T t = if t = T - 1 then H / T + (H - (H / T) * T) else H / T) ∧
    (∀ t u r, 0 ≤ t → t < T → 0 ≤ u → u < T → t ≠ u →
      ¬ (inSlice H T t r ∧ inSlice H T u r)) ∧
    (∀ r, (0 ≤ r ∧ r < H) ↔ ∃ t, 0 ≤ t ∧ t < T ∧ inSlice H T t r) ∧
    (∀ (α : Type) (enc : ℚ → α) (w rb value t : Int) (src : Int → Int) (stride : Int),
      threadProcF16C enc T w H rb value t src stride =
          rowLoop enc (yoffset value) (ygain value) w H rb src stride
            (Int.toNat (rowcount H T t)) (rowstart H T t) ∧
      threadProc enc T w H rb value t src stride =
          rowLoop enc (yoffset value) (ygain value) w H rb src stride
            (Int.toNat (rowcount H T t)) (rowstart H T t)) := by
  refine ⟨?_, ?_, ?_, ?_⟩
  · intro t _ _
    simp [rowstart, rowcount, Int.tdiv_eq_ediv hH (show (0 : Int) ≤ T by omega)]
  · rintro t u r h0 h1 h2 h3 hne ⟨ha, hb⟩
    rcases lt_or_gt_of_ne hne with h | h
    · exact slice_disjoint H T t u r hH hT h3 h ha hb
    · exact slice_disjoint H T u t r hH hT h1 h hb ha
  · intro r
    constructor
    · rintro ⟨h0, h1⟩
      exact slice_cover H T r hH hT h0 h1
    · rintro ⟨t, h0, h1, hr⟩
      exact slice_subset H T t r hH hT h0 h1 hr
  · intro α enc w rb value t src stride
    exact ⟨rfl, rfl⟩

theorem row_coverage_witness :
    (0 : Int) ≤ 1080 ∧ (1 : Int) ≤ 7 ∧
      (∀ r, (0 ≤ r ∧ r < 1080) ↔ ∃ t, 0 ≤ t ∧ t < 7 ∧ inSlice 1080 7 t r) :=
  ⟨by decide, by decide, (row_coverage 1080 7 (by decide) (by decide)).2.2.1⟩

/-! ## Vertical flip -/

theorem v210Row_eq (rb H r : Int) : v210Row rb H r = (H - 1 - r) * rb := by
  unfold v210Row; ring

/-- C3: for every output row `0 ≤ r < H` the packed row is read at byte offset
`(H - 1 - r) * v210rowbytes`, which lies in `[0, (H - 1) * v210rowbytes]`; output row 0
reads packed row `H - 1` and output row `H - 1` reads packed row 0; and
`r ↦ H - 1 - r` is a bijection of `[0, H)` onto itself. -/
theorem vertical_flip (rb H r : Int) (hrb : 0 ≤ rb) (h0 : 0 ≤ r) (h1 : r < H) :
    v210Row rb H r = (H - 1 - r) * rb ∧
    (0 ≤ v210Row rb H r ∧ v210Row rb H r ≤ (H - 1) * rb) ∧
    v210Row rb H 0 = (H - 1) * rb ∧
    v210Row rb H (H - 1) = 0 * rb ∧
    Set.BijOn (fun r : Int => H - 1 - r) (Set.Ico 0 H) (Set.Ico 0 H) := by
  refine ⟨v210Row_eq rb H r, ⟨?_, ?_⟩, ?_, ?_, ?_⟩
  · rw [v210Row_eq]; exact mul_nonneg (by omega) hrb
  · rw [v210Row_eq]; exact mul_le_mul_of_nonneg_right (by omega) hrb
  · rw [v210Row_eq]; ring
  · rw [v210Row_eq]; ring
  · refine ⟨?_, ?_, ?_⟩
    · intro x hx
      simp only [Set.mem_Ico] at hx ⊢
      omega
    · intro x _ y _ hxy
      simp only at hxy
      omega
    · intro y hy
      simp only [Set.mem_Ico] at hy
      refine ⟨H - 1 - y, ?_, ?_⟩
      · simp only [Set.mem_Ico]; omega
      · simp only; omega

theorem vertical_flip_witness :
    v210Row (v210rowbytes 1920) 1080 0 = (1080 - 1 - 0) * v210rowbytes 1920 ∧
      v210Row (v210rowbytes 1920) 1080 (1080 - 1) = 0 * v210rowbytes 1920 :=
  ⟨(vertical_flip (v210rowbytes 1920) 1080 0 (by decide) (by decide) (by decide)).1,
    (vertical_flip (v210rowbytes 1920) 1080 0 (by decide) (by decide) (by decide)).2.2.2.1⟩

/-! ## Loops -/

theorem mem_chunkLoop {α : Type} (enc : ℚ → α) (yo yg : ℚ) (w : Int) (src : Int → Int)
    (s : Store α) : ∀ (n : Nat) (chunk v210 rgb : Int),
    s ∈ chunkLoop enc yo yg w src n chunk v210 rgb ↔
      ∃ i : Nat, i < n ∧
        s ∈ convertChunk enc yo yg w (chunk + i) src (v210 + 16 * i) (rgb + 36 * i) := by
  intro n
  induction n with
  | zero => intro chunk v210 rgb; simp [chunkLoop]
  | succ n ih =>
    intro chunk v210 rgb
    simp only [chunkLoop, List.mem_append, ih]
    constructor
    · rintro (h | ⟨i, hi, h⟩)
      · exact ⟨0, by omega, by simpa using h⟩
      · refine ⟨i + 1, by omega, ?_⟩
        have e1 : chunk + ((i + 1 : Nat) : Int) = chunk + 1 + i := by push_cast; ring
        have e2 : v210 + 16 * ((i + 1 : Nat) : Int) = v210 + 4 * 4 + 16 * i := by
          push_cast; ring
        have e3 : rgb + 36 * ((i + 1 : Nat) : Int) = rgb + 2 * (6 * 3) + 36 * i := by
          push_cast; ring
        rw [e1, e2, e3]; exact h
    · rintro ⟨i, hi, h⟩
      cases i with
      | zero => left; simpa using h
      | succ i =>
        right
        refine ⟨i, by omega, ?_⟩
        have e1 : chunk + ((i + 1 : Nat) : Int) = chunk + 1 + i := by push_cast; ring
        have e2 : v210 + 16 * ((i + 1 : Nat) : Int) = v210 + 4 * 4 + 16 * i := by
          push_cast; ring
        have e3 : rgb + 36 * ((i + 1 : Nat) : Int) = rgb + 2 * (6 * 3) + 36 * i := by
          push_cast; ring
        rw [e1, e2, e3] at h; exact h

theorem mem_chunkLoopReads (w : Int) (off : Int) : ∀ (n : Nat) (chunk v210 : Int),
    off ∈ chunkLoopReads w n chunk v210 ↔
      ∃ i : Nat, i < n ∧ off ∈ chunkReads w (chunk + i) (v210 + 16 * i) := by
  intro n
  induction n with
  | zero => intro chunk v210; simp [chunkLoopReads]
  | succ n ih =>
    intro chunk v210
    simp only [chunkLoopReads, List.mem_append, ih]
    constructor
    · rintro (h | ⟨i, hi, h⟩)
      · exact ⟨0, by omega, by simpa using h⟩
      · refine ⟨i + 1, by omega, ?_⟩
        have e1 : chunk + ((i + 1 : Nat) : Int) = chunk + 1 + i := by push_cast; ring
        have e2 : v210 + 16 * ((i + 1 : Nat) : Int) = v210 + 4 * 4 + 16 * i := by
          push_cast; ring
        rw [e1, e2]; exact h
    · rintro ⟨i, hi, h⟩
      cases i with
      | zero => left; simpa using h
      | succ i =>
        right
        refine ⟨i, by omega, ?_⟩
        have e1 : chunk + ((i + 1 : Nat) : Int) = chunk + 1 + i := by push_cast; ring
        have e2 : v210 + 16 * ((i + 1 : Nat) : Int) = v210 + 4 * 4 + 16 * i := by
          push_cast; ring
        rw [e1, e2] at h; exact h

theorem mem_rowLoop {α : Type} (enc : ℚ → α) (yo yg : ℚ) (w h rb : Int) (src : Int → Int)
    (stride : Int) (s : Store α) : ∀ (n : Nat) (row : Int),
    s ∈ rowLoop enc yo yg w h rb src stride n row ↔
      ∃ i : Nat, i < n ∧ s ∈ convertRow enc yo yg w h rb src stride (row + i) := by
  intro n
  induction n with
  | zero => intro row; simp [rowLoop]
  | succ n ih =>
    intro row
    simp only [rowLoop, List.mem_append, ih]
    constructor
    · rintro (h | ⟨i, hi, h⟩)
      · exact ⟨0, by omega, by simpa using h⟩
      · refine ⟨i + 1, by omega, ?_⟩
        have e1 : row + ((i + 1 : Nat) : Int) = row + 1 + i := by push_cast; ring
        rw [e1]; exact h
    · rintro ⟨i, hi, h⟩
      cases i with
      | zero => left; simpa using h
      | succ i =>
        right
        refine ⟨i, by omega, ?_⟩
        have e1 : row + ((i + 1 : Nat) : Int) = row + 1 + i := by push_cast; ring
        rw [e1] at h; exact h

/-- The stores of one row: one chunk body per chunk index in `[0, w / 6)`. -/
theorem mem_convertRow {α : Type} (enc : ℚ → α) (yo yg : ℚ) (w h rb : Int) (src : Int → Int)
    (stride row : Int) (s : Store α) :
    s ∈ convertRow enc yo yg w h rb src stride row ↔
      ∃ chunk : Int, 0 ≤ chunk ∧ chunk < Int.tdiv w 6 ∧
        s ∈ convertChunk enc yo yg w chunk src (v210Row rb h row + 16 * chunk)
          (rgbRow stride row + 36 * chunk) := by
  unfold convertRow
  rw [mem_chunkLoop]
  constructor
  · rintro ⟨i, hi, h⟩
    refine ⟨i, by omega, by omega, ?_⟩
    simpa using h
  · rintro ⟨chunk, h0, h1, h⟩
    refine ⟨chunk.toNat, by omega, ?_⟩
    rw [Int.toNat_of_nonneg h0]
    simpa using h

/-- The stores of one worker: one row body per row of its slice. -/
theorem mem_threadProc {α : Type} (enc : ℚ → α) (T w H rb value t : Int) (src : Int → Int)
    (stride : Int) (s : Store α) :
    s ∈ threadProc enc T w H rb value t src stride ↔
      ∃ row : Int, inSlice H T t row ∧
        s ∈ convertRow enc (yoffset value) (ygain value) w H rb src stride row := by
  unfold threadProc
  rw [mem_rowLoop]
  constructor
  · rintro ⟨i, hi, h⟩
    refine ⟨rowstart H T t + i, ?_, h⟩
    unfold inSlice
    omega
  · rintro ⟨row, ⟨h0, h1⟩, h⟩
    refine ⟨(row - rowstart H T t).toNat, by omega, ?_⟩
    rw [Int.toNat_of_nonneg (by omega)]
    have e : rowstart H T t + (row - rowstart H T t) = row := by ring
    rw [e]; exact h

theorem threadProcF16C_eq {α : Type} (enc : ℚ → α) (T w H rb value t : Int) (src : Int → Int)
    (stride : Int) :
    threadProcF16C enc T w H rb value t src stride =
      threadProc enc T w H rb value t src stride := rfl

/-- The stores of a whole conversion call: one chunk body per row in `[0, h)` and chunk
index in `[0, w / 6)`. -/
theorem mem_frame {α : Type} (enc : ℚ → α) (T w H rb value : Int) (src : Int → Int)
    (stride : Int) (hH : 0 ≤ H) (hT : 1 ≤ T) (s : Store α) :
    s ∈ sparkMpFork T (fun t => threadProc enc T w H rb value t src stride) ↔
      ∃ row chunk : Int, 0 ≤ row ∧ row < H ∧ 0 ≤ chunk ∧ chunk < Int.tdiv w 6 ∧
        s ∈ convertChunk enc (yoffset value) (ygain value) w chunk src
          (v210Row rb H row + 16 * chunk) (rgbRow stride row + 36 * chunk) := by
  unfold sparkMpFork
  simp only [List.mem_flatMap, List.mem_range, mem_threadProc, mem_convertRow]
  constructor
  · rintro ⟨t, ht, row, hrow, chunk, h0, h1, h⟩
    obtain ⟨r0, r1⟩ := slice_subset H T t row hH hT (by omega) (by omega) hrow
    exact ⟨row, chunk, r0, r1, h0, h1, h⟩
  · rintro ⟨row, chunk, r0, r1, h0, h1, h⟩
    obtain ⟨t, t0, t1, ht⟩ := slice_cover H T row hH hT r0 r1
    refine ⟨t.toNat, by omega, row, ?_, chunk, h0, h1, h⟩
    rw [Int.toNat_of_nonneg t0]; exact ht

/-! ## Edge chroma clamp and the loads of a row -/

theorem width_facts : Int.tdiv 1920 6 = 320 ∧ v210rowbytes 1920 = 5120 ∧
    Int.tdiv (v210rowbytes 1920) 4 = 1280 := by
  refine ⟨by decide, by decide, by decide⟩

/-- The stores of a chunk body depend only on the words listed in `chunkReads`. -/
theorem convertChunk_congr {α : Type} (enc : ℚ → α) (yo yg : ℚ) (w chunk v210 rgb : Int)
    (src src' : Int → Int) (hagree : ∀ off ∈ chunkReads w chunk v210, src off = src' off) :
    convertChunk enc yo yg w chunk src v210 rgb =
      convertChunk enc yo yg w chunk src' v210 rgb := by
  have h0 := hagree v210 (by simp [chunkReads])
  have h1 := hagree (v210 + 4) (by simp [chunkReads])
  have h2 := hagree (v210 + 8) (by simp [chunkReads])
  have h3 := hagree (v210 + 12) (by simp [chunkReads])
  unfold convertChunk loadNext loadSamples nextChroma
  rw [h0, h1, h2, h3]
  by_cases hl : chunk = Int.tdiv w 6 - 1
  · simp only [if_pos hl]
  · have h4 := hagree (v210 + 4 * 4) (by simp [chunkReads, hl])
    simp only [if_neg hl, h4]

theorem rowReads_bound (h row off : Int) (hoff : off ∈ rowReads 1920 h (v210rowbytes 1920) row) :
    ∃ i : Int, 0 ≤ i ∧ i < Int.tdiv (v210rowbytes 1920) 4 ∧
      off = v210Row (v210rowbytes 1920) h row + 4 * i := by
  unfold rowReads at hoff
  rw [mem_chunkLoopReads] at hoff
  obtain ⟨i, hi, hmem⟩ := hoff
  obtain ⟨e1, e2, e3⟩ := width_facts
  rw [e3]
  rw [e1] at hi
  simp only [chunkReads, e1, List.mem_append, List.mem_cons, List.mem_singleton,
    List.mem_nil_iff, or_false] at hmem
  have hi2 : (i : Int) < 320 := by omega
  rcases hmem with (h | h | h | h) | h
  · exact ⟨4 * i, by omega, by omega, by omega⟩
  · exact ⟨4 * i + 1, by omega, by omega, by omega⟩
  · exact ⟨4 * i + 2, by omega, by omega, by omega⟩
  · exact ⟨4 * i + 3, by omega, by omega, by omega⟩
  · split_ifs at h with hl
    · simp at h
    · simp only [List.mem_singleton] at h
      exact ⟨4 * i + 4, by omega, by omega, by omega⟩

/-- C4: in the last chunk of a row (index `w / 6 - 1`) the next chroma samples are the
chunk's own `cr4` and `cb4`, the values written for pixel 5 are the matrix applied to
its luma and to the chroma of pixel 4, and the fifth word `v210[4]` is not among the
loads; in every other chunk `cr6` and `cb6` are bits 20-29 and 0-9 of the first word of
the following chunk (its `cr0` and `cb0`); the stores of a chunk depend only on the
loaded words; and for `w = 1920` every load of a row is a word with index in
`[0, v210rowbytes / 4)` counted from the start of that row. -/
theorem edge_chroma_clamp {α : Type} (enc : ℚ → α) (yo yg : ℚ) (w chunk v210 rgb h row : Int)
    (src src' : Int → Int) (hagree : ∀ off ∈ chunkReads w chunk v210, src off = src' off) :
    (chunk = Int.tdiv w 6 - 1 →
      loadNext w chunk src v210 = ((loadSamples src v210).cr4, (loadSamples src v210).cb4) ∧
      (chunkRGB yo yg (loadSamples src v210) (loadNext w chunk src v210)).drop 15 =
        [ ((((loadSamples src v210).y5 : ℚ) - yo) * yg +
            (((loadSamples src v210).cr4 : ℚ) - 512) * 1.793) / 1023,
          ((((loadSamples src v210).y5 : ℚ) - yo) * yg +
            (((loadSamples src v210).cb4 : ℚ) - 512) * -0.213 +
            (((loadSamples src v210).cr4 : ℚ) - 512) * -0.533) / 1023,
          ((((loadSamples src v210).y5 : ℚ) - yo) * yg +
            (((loadSamples src v210).cb4 : ℚ) - 512) * 2.112) / 1023 ] ∧
      v210 + 4 * 4 ∉ chunkReads w chunk v210) ∧
    (chunk ≠ Int.tdiv w 6 - 1 →
      loadNext w chunk src v210 =
        (field (src (v210 + 4 * 4)) 20, field (src (v210 + 4 * 4)) 0) ∧
      loadNext w chunk src v210 =
        ((loadSamples src (v210 + 4 * 4)).cr0, (loadSamples src (v210 + 4 * 4)).cb0)) ∧
    convertChunk enc yo yg w chunk src v210 rgb =
      convertChunk enc yo yg w chunk src' v210 rgb ∧
    (∀ off ∈ rowReads 1920 h (v210rowbytes 1920) row,
      ∃ i : Int, 0 ≤ i ∧ i < Int.tdiv (v210rowbytes 1920) 4 ∧
        off = v210Row (v210rowbytes 1920) h row + 4 * i) := by
  refine ⟨?_, ?_, convertChunk_congr enc yo yg w chunk v210 rgb src src' hagree,
    fun off hoff => rowReads_bound h row off hoff⟩
  · intro hl
    have hn : loadNext w chunk src v210 =
        ((loadSamples src v210).cr4, (loadSamples src v210).cb4) := by
      simp [loadNext, nextChroma, hl]
    refine ⟨hn, ?_, ?_⟩
    · rw [hn]
      simp only [chunkRGB, List.drop_succ_cons, List.drop_zero, List.cons.injEq, and_true]
      refine ⟨?_, ?_, ?_⟩ <;> ring
    · simp [chunkReads, hl]
  · intro hl
    refine ⟨?_, ?_⟩
    · simp [loadNext, nextChroma, hl]
    · simp [loadNext, nextChroma, hl, loadSamples, unpack]

theorem edge_chroma_clamp_witness :
    convertChunk id 64 1 1920 319 (fun _ => 537395712) 5104 0 =
      convertChunk id 64 1 1920 319 (fun off => if off = 5120 then 7 else 537395712) 5104 0 :=
  (edge_chroma_clamp id 64 1 1920 319 5104 0 1080 0 (fun _ => 537395712)
    (fun off => if off = 5120 then 7 else 537395712) (by decide)).2.2.1

/-! ## Solid colour -/

theorem chunkRGB_solid (Y Cb Cr : Int) :
    chunkRGB (yoffset 0) (ygain 0) (solid Y Cb Cr) (Cr, Cb) =
      [specSolidRGB Y Cb Cr 0, specSolidRGB Y Cb Cr 1, specSolidRGB Y Cb Cr 2,
        specSolidRGB Y Cb Cr 0, specSolidRGB Y Cb Cr 1, specSolidRGB Y Cb Cr 2,
        specSolidRGB Y Cb Cr 0, specSolidRGB Y Cb Cr 1, specSolidRGB Y Cb Cr 2,
        specSolidRGB Y Cb Cr 0, specSolidRGB Y Cb Cr 1, specSolidRGB Y Cb Cr 2,
        specSolidRGB Y Cb Cr 0, specSolidRGB Y Cb Cr 1, specSolidRGB Y Cb Cr 2,
        specSolidRGB Y Cb Cr 0, specSolidRGB Y Cb Cr 1, specSolidRGB Y Cb Cr 2] := by
  have hR : ((Y : ℚ) - 64) * 1.164 + ((Cb : ℚ) - 512) * 0.000 + ((Cr : ℚ) - 512) * 1.793 =
      1.164 * ((Y : ℚ) - 64) + 1.793 * ((Cr : ℚ) - 512) := by ring
  have hG : ((Y : ℚ) - 64) * 1.164 + ((Cb : ℚ) - 512) * -0.213 + ((Cr : ℚ) - 512) * -0.533 =
      1.164 * ((Y : ℚ) - 64) - 0.213 * ((Cb : ℚ) - 512) - 0.533 * ((Cr : ℚ) - 512) := by ring
  have hB : ((Y : ℚ) - 64) * 1.164 + ((Cb : ℚ) - 512) * 2.112 + ((Cr : ℚ) - 512) * 0.000 =
      1.164 * ((Y : ℚ) - 64) + 2.112 * ((Cb : ℚ) - 512) := by ring
  have hc : (((Cr : ℚ) - 512) + ((Cr : ℚ) - 512)) * 0.5 = (Cr : ℚ) - 512 := by ring
  have hd : (((Cb : ℚ) - 512) + ((Cb : ℚ) - 512)) * 0.5 = (Cb : ℚ) - 512 := by ring
  simp only [chunkRGB, solid, specSolidRGB, yoffset, ygain, ne_eq, not_true_eq_false,
    if_false, if_true, hc, hd, hR, hG, hB, one_ne_zero]
  norm_num

theorem mem_storeFrom {α : Type} (enc : ℚ → α) (s : Store α) : ∀ (vals : List ℚ) (rgb : Int),
    s ∈ storeFrom enc rgb vals ↔
      ∃ j : Nat, j < vals.length ∧ s = ⟨rgb + 2 * j, enc (vals.getD j 0)⟩ := by
  intro vals
  induction vals with
  | nil => intro rgb; simp [storeFrom]
  | cons v vs ih =>
    intro rgb
    simp only [storeFrom, List.mem_cons, ih, List.length_cons]
    constructor
    · rintro (h | ⟨j, hj, h⟩)
      · exact ⟨0, by omega, by simpa using h⟩
      · refine ⟨j + 1, by omega, ?_⟩
        rw [h, List.getD_cons_succ]
        congr 1
        push_cast; ring
    · rintro ⟨j, hj, h⟩
      cases j with
      | zero => left; simpa using h
      | succ j =>
        right
        refine ⟨j, by omega, ?_⟩
        rw [h, List.getD_cons_succ]
        congr 1
        push_cast; ring

theorem solid_getD (R G B : ℚ) (j : Nat) (hj : j < 18) :
    [R, G, B, R, G, B, R, G, B, R, G, B, R, G, B, R, G, B].getD j 0 =
      if j % 3 = 0 then R else if j % 3 = 1 then G else B := by
  interval_cases j <;> rfl

theorem mem_solid_stores {α : Type} (enc : ℚ → α) (rgb : Int) (Y Cb Cr : Int) (s : Store α) :
    s ∈ storeFrom enc rgb (chunkRGB (yoffset 0) (ygain 0) (solid Y Cb Cr) (Cr, Cb)) ↔
      ∃ k c : Int, 0 ≤ k ∧ k < 6 ∧ 0 ≤ c ∧ c < 3 ∧
        s = ⟨rgb + 2 * (3 * k + c), enc (specSolidRGB Y Cb Cr c)⟩ := by
  rw [chunkRGB_solid, mem_storeFrom]
  simp only [List.length_cons, List.length_nil]
  constructor
  · rintro ⟨j, hj, h⟩
    rw [solid_getD _ _ _ j (by omega)] at h
    refine ⟨(j / 3 : Nat), (j % 3 : Nat), by omega, by omega, by omega, by omega, ?_⟩
    rw [h]
    congr 1
    · omega
    · have h3 : j % 3 = 0 ∨ j % 3 = 1 ∨ j % 3 = 2 := by omega
      rcases h3 with h3 | h3 | h3 <;> simp [h3]
  · rintro ⟨k, c, k0, k1, c0, c1, h⟩
    refine ⟨(3 * k + c).toNat, by omega, ?_⟩
    rw [solid_getD _ _ _ _ (by omega), h, Int.toNat_of_nonneg (by omega)]
    congr 2
    have h3 : c = 0 ∨ c = 1 ∨ c = 2 := by omega
    have e : (3 * k + c).toNat % 3 = c.toNat := by omega
    rw [e]
    rcases h3 with h3 | h3 | h3 <;> subst h3 <;> simp

/-- In a solid frame every chunk body stores the same three values six times. -/
theorem solid_chunk {α : Type} (enc : ℚ → α) (Y Cb Cr : Int) (src : Int → Int) (stride : Int)
    (hsolid : ∀ ρ c : Int, 0 ≤ ρ → ρ < 1080 → 0 ≤ c → c < 320 →
      loadSamples src (ρ * v210rowbytes 1920 + 16 * c) = solid Y Cb Cr)
    (row chunk : Int) (r0 : 0 ≤ row) (r1 : row < 1080) (c0 : 0 ≤ chunk)
    (c1 : chunk < Int.tdiv 1920 6) :
    convertChunk enc (yoffset 0) (ygain 0) 1920 chunk src
        (v210Row (v210rowbytes 1920) 1080 row + 16 * chunk) (rgbRow stride row + 36 * chunk) =
      storeFrom enc (rgbRow stride row + 36 * chunk)
        (chunkRGB (yoffset 0) (ygain 0) (solid Y Cb Cr) (Cr, Cb)) := by
  obtain ⟨e1, e2, _⟩ := width_facts
  rw [e1] at c1
  have hv : v210Row (v210rowbytes 1920) 1080 row + 16 * chunk =
      (1079 - row) * v210rowbytes 1920 + 16 * chunk := by
    rw [v210Row_eq]; norm_num
  have hs := hsolid (1079 - row) chunk (by omega) (by omega) c0 c1
  rw [← hv] at hs
  have hn : loadNext 1920 chunk src (v210Row (v210rowbytes 1920) 1080 row + 16 * chunk) =
      (Cr, Cb) := by
    unfold loadNext nextChroma
    rw [hs, e1]
    by_cases hl : chunk = 320 - 1
    · simp [hl, solid]
    · rw [if_neg hl]
      have hs2 := hsolid (1079 - row) (chunk + 1) (by omega) (by omega) (by omega) (by omega)
      have hv2 : (1079 - row) * v210rowbytes 1920 + 16 * (chunk + 1) =
          v210Row (v210rowbytes 1920) 1080 row + 16 * chunk + 4 * 4 := by
        rw [hv]; ring
      rw [hv2] at hs2
      have ha : (loadSamples src
          (v210Row (v210rowbytes 1920) 1080 row + 16 * chunk + 4 * 4)).cr0 = Cr := by
        rw [hs2]; rfl
      have hb : (loadSamples src
          (v210Row (v210rowbytes 1920) 1080 row + 16 * chunk + 4 * 4)).cb0 = Cb := by
        rw [hs2]; rfl
      simp only [loadSamples, unpack] at ha hb
      rw [ha, hb]
  unfold convertChunk
  rw [hs, hn]

theorem solid_frame {α : Type} (enc : ℚ → α) (T stride Y Cb Cr : Int) (src : Int → Int)
    (hT : 1 ≤ T)
    (hsolid : ∀ ρ c : Int, 0 ≤ ρ → ρ < 1080 → 0 ≤ c → c < 320 →
      loadSamples src (ρ * v210rowbytes 1920 + 16 * c) = solid Y Cb Cr) (s : Store α) :
    s ∈ sparkMpFork T (fun t => threadProc enc T 1920 1080 (v210rowbytes 1920) 0 t src stride) ↔
      ∃ r p c : Int, 0 ≤ r ∧ r < 1080 ∧ 0 ≤ p ∧ p < 1920 ∧ 0 ≤ c ∧ c < 3 ∧
        s = ⟨rgbRow stride r + 2 * (3 * p + c), enc (specSolidRGB Y Cb Cr c)⟩ := by
  rw [mem_frame enc T 1920 1080 (v210rowbytes 1920) 0 src stride (by norm_num) hT s]
  have e1 := width_facts.1
  constructor
  · rintro ⟨row, chunk, r0, r1, c0, c1, h⟩
    rw [solid_chunk enc Y Cb Cr src stride hsolid row chunk r0 r1 c0 c1, mem_solid_stores] at h
    obtain ⟨k, c, k0, k1, d0, d1, hs⟩ := h
    rw [e1] at c1
    refine ⟨row, 6 * chunk + k, c, r0, r1, by omega, by omega, d0, d1, ?_⟩
    rw [hs]
    congr 1
    ring
  · rintro ⟨r, p, c, r0, r1, p0, p1, d0, d1, hs⟩
    have c0 : 0 ≤ p / 6 := by omega
    have c1 : p / 6 < Int.tdiv 1920 6 := by rw [e1]; omega
    refine ⟨r, p / 6, r0, r1, c0, c1, ?_⟩
    rw [solid_chunk enc Y Cb Cr src stride hsolid r (p / 6) r0 r1 c0 c1, mem_solid_stores]
    refine ⟨p % 6, c, by omega, by omega, d0, d1, ?_⟩
    rw [hs]
    congr 1
    omega

/-- The 32-bit product of a row of the frame by the stride is the exact product as long
as the product for the last row fits in a signed 32-bit `int`. -/
theorem rgbRow_eq (stride r : Int)
    (hb : -2147483648 ≤ 1079 * stride ∧ 1079 * stride ≤ 2147483647)
    (r0 : 0 ≤ r) (r1 : r < 1080) : rgbRow stride r = r * stride := by
  have h1 : -2147483648 ≤ r * stride ∧ r * stride ≤ 2147483647 := by
    rcases le_total 0 stride with hs | hs
    · constructor <;> nlinarith [mul_nonneg r0 hs, mul_nonneg (show (0 : Int) ≤ 1079 - r by omega) hs]
    · constructor <;>
        nlinarith [mul_nonneg_of_nonpos_of_nonpos (show -r ≤ 0 by omega) hs,
          mul_nonneg_of_nonpos_of_nonpos (show r - 1079 ≤ 0 by omega) hs]
  unfold rgbRow wrap32
  generalize r * stride = x at h1 ⊢
  omega

/-- C2: when every chunk of a 1920x1080 frame unpacks to the same colour `(Y, Cb, Cr)`,
then for every thread count `T ≥ 1`, in limited-range mode (`SparkBoolean16.Value = 0`),
both kernels store, for every row `r`, pixel `p` and channel `c`, the encoding of the
Rec.709 value of that colour at element `3 * p + c` of row `r`, two bytes per element
from the row base `rgbRow stride r`, and store nothing else; and the row base is
`r * Stride` for every row whenever the product `1079 * Stride` fits in a signed 32-bit
`int`. -/
theorem solid_colour {α : Type} (enc : ℚ → α) (T stride Y Cb Cr : Int) (src : Int → Int)
    (hT : 1 ≤ T)
    (hsolid : ∀ ρ c : Int, 0 ≤ ρ → ρ < 1080 → 0 ≤ c → c < 320 →
      loadSamples src (ρ * v210rowbytes 1920 + 16 * c) = solid Y Cb Cr) :
    (∀ s : Store α,
      s ∈ sparkMpFork T
          (fun t => threadProcF16C enc T 1920 1080 (v210rowbytes 1920) 0 t src stride) ↔
        ∃ r p c : Int, 0 ≤ r ∧ r < 1080 ∧ 0 ≤ p ∧ p < 1920 ∧ 0 ≤ c ∧ c < 3 ∧
          s = ⟨rgbRow stride r + 2 * (3 * p + c), enc (specSolidRGB Y Cb Cr c)⟩) ∧
    (∀ s : Store α,
      s ∈ sparkMpFork T
          (fun t => threadProc enc T 1920 1080 (v210rowbytes 1920) 0 t src stride) ↔
        ∃ r p c : Int, 0 ≤ r ∧ r < 1080 ∧ 0 ≤ p ∧ p < 1920 ∧ 0 ≤ c ∧ c < 3 ∧
          s = ⟨rgbRow stride r + 2 * (3 * p + c), enc (specSolidRGB Y Cb Cr c)⟩) ∧
    ((-2147483648 ≤ 1079 * stride ∧ 1079 * stride ≤ 2147483647) →
      ∀ r : Int, 0 ≤ r → r < 1080 → rgbRow stride r = r * stride) := by
  refine ⟨?_, ?_, fun hb r r0 r1 => rgbRow_eq stride r hb r0 r1⟩
  · intro s
    simp only [threadProcF16C_eq]
    exact solid_frame enc T stride Y Cb Cr src hT hsolid s
  · intro s
    exact solid_frame enc T stride Y Cb Cr src hT hsolid s

theorem solid_words : loadSamples (fun _ => 537395712) 0 = solid 512 512 512 := by
  decide

theorem solid_colour_witness :
    (⟨rgbRow 5760 3 + 2 * (3 * 7 + 1), specSolidRGB 512 512 512 1⟩ : Store ℚ) ∈
        sparkMpFork 8 (fun t => threadProc id 8 1920 1080 (v210rowbytes 1920) 0 t
          (fun _ => 537395712) 5760) ∧
      rgbRow 5760 3 = 3 * 5760 :=
  ⟨((solid_colour id 8 5760 512 512 512 (fun _ => 537395712) (by decide)
      (fun _ _ _ _ _ _ => solid_words)).2.1 _).2
        ⟨3, 7, 1, by decide, by decide, by decide, by decide, by decide, by decide, rfl⟩,
    (solid_colour id 8 5760 512 512 512 (fun _ => 537395712) (by decide)
      (fun _ _ _ _ _ _ => solid_words)).2.2 (by decide) 3 (by decide) (by decide)⟩

/-! ## The two encoders -/

theorem storeFrom_map {α : Type} (enc : ℚ → α) : ∀ (vals : List ℚ) (rgb : Int),
    storeFrom enc rgb vals = (storeFrom id rgb vals).map fun s => ⟨s.off, enc s.val⟩ := by
  intro vals
  induction vals with
  | nil => intro rgb; rfl
  | cons v vs ih => intro rgb; simp only [storeFrom, List.map_cons, id, ih (rgb + 2)]

theorem chunkLoop_map {α : Type} (enc : ℚ → α) (yo yg : ℚ) (w : Int) (src : Int → Int) :
    ∀ (n : Nat) (chunk v210 rgb : Int),
    chunkLoop enc yo yg w src n chunk v210 rgb =
      (chunkLoop id yo yg w src n chunk v210 rgb).map fun s => ⟨s.off, enc s.val⟩ := by
  intro n
  induction n with
  | zero => intro chunk v210 rgb; rfl
  | succ n ih =>
    intro chunk v210 rgb
    simp only [chunkLoop, List.map_append, convertChunk]
    rw [ih, storeFrom_map enc]

theorem rowLoop_map {α : Type} (enc : ℚ → α) (yo yg : ℚ) (w h rb : Int) (src : Int → Int)
    (stride : Int) : ∀ (n : Nat) (row : Int),
    rowLoop enc yo yg w h rb src stride n row =
      (rowLoop id yo yg w h rb src stride n row).map fun s => ⟨s.off, enc s.val⟩ := by
  intro n
  induction n with
  | zero => intro row; rfl
  | succ n ih =>
    intro row
    simp only [rowLoop, List.map_append, convertRow]
    rw [ih, chunkLoop_map enc]

/-- Whatever the two float-to-half encoders are, the hardware and the software kernel
make their stores in the same order at the same byte offsets, and the values they
encode are the same exact values. -/
theorem backends_before_encoding {α β : Type} (cvtss_sh : ℚ → α) (half : ℚ → β)
    (T w H rb value t : Int) (src : Int → Int) (stride : Int) :
    threadProcF16C cvtss_sh T w H rb value t src stride =
      (threadProc id T w H rb value t src stride).map (fun s => ⟨s.off, cvtss_sh s.val⟩) ∧
    threadProc half T w H rb value t src stride =
      (threadProc id T w H rb value t src stride).map (fun s => ⟨s.off, half s.val⟩) := by
  unfold threadProcF16C threadProc
  exact ⟨rowLoop_map cvtss_sh _ _ _ _ _ _ _ _ _, rowLoop_map half _ _ _ _ _ _ _ _ _⟩

/-! ## Luma mode -/

/-- The blue value of pixel 0 (`rgb[2]`) of a chunk. -/
theorem blue_zero (value : Int) (s : Samples) (n : Int × Int) :
    (chunkRGB (yoffset value) (ygain value) s n).getD 2 0 =
      (((s.y0 : ℚ) - yoffset value) * ygain value + ((s.cb0 : ℚ) - 512) * 2.112) / 1023 := by
  simp only [chunkRGB, List.getD_cons_succ, List.getD_cons_zero]
  ring

theorem sample_words (x : Int) :
    (loadSamples (fun off => if off = 0 then x else 0) 0).y0 = field x 10 ∧
    (loadSamples (fun off => if off = 0 then x else 0) 0).cb0 = field x 0 := by
  simp [loadSamples, unpack]

theorem sample_fields :
    (field 537141760 10 = 264 ∧ field 537141760 0 = 512) ∧
    (field 536871549 10 = 0 ∧ field 536871549 0 = 637) ∧
    (field 537051648 10 = 176 ∧ field 537051648 0 = 512) ∧
    (field 536871521 10 = 0 ∧ field 536871521 0 = 609) := by
  simp only [field_ten, field_zero]
  norm_num

/-- C6, counterexample: no function of the output component alone, even one chosen per
width, chunk, chunk address and position in the chunk, maps the full-range output to the limited-range output of every
frame, nor the limited-range output to the full-range one.  The frames whose first word
is 537141760 (Y 264, Cb 512) and 536871549 (Y 0, Cb 637) have the same full-range blue
value of pixel 0 and different limited-range ones; those with first word 537051648
(Y 176, Cb 512) and 536871521 (Y 0, Cb 609) the same limited-range and different
full-range ones. -/
theorem luma_toggle_not_componentwise :
    (¬ ∃ f : Int → Int → Int → Nat → ℚ → ℚ,
      ∀ (src : Int → Int) (w chunk v210 : Int) (j : Nat), j < 18 →
        (chunkRGB (yoffset 0) (ygain 0) (loadSamples src v210)
            (loadNext w chunk src v210)).getD j 0 =
          f w chunk v210 j ((chunkRGB (yoffset 1) (ygain 1) (loadSamples src v210)
            (loadNext w chunk src v210)).getD j 0)) ∧
    (¬ ∃ g : Int → Int → Int → Nat → ℚ → ℚ,
      ∀ (src : Int → Int) (w chunk v210 : Int) (j : Nat), j < 18 →
        (chunkRGB (yoffset 1) (ygain 1) (loadSamples src v210)
            (loadNext w chunk src v210)).getD j 0 =
          g w chunk v210 j ((chunkRGB (yoffset 0) (ygain 0) (loadSamples src v210)
            (loadNext w chunk src v210)).getD j 0)) := by
  obtain ⟨⟨a1, a2⟩, ⟨b1, b2⟩, ⟨c1, c2⟩, ⟨d1, d2⟩⟩ := sample_fields
  constructor
  · rintro ⟨f, hf⟩
    have ha := hf (fun off => if off = 0 then 537141760 else 0) 1920 0 0 2 (by norm_num)
    have hb := hf (fun off => if off = 0 then 536871549 else 0) 1920 0 0 2 (by norm_num)
    rw [blue_zero, blue_zero, (sample_words _).1, (sample_words _).2, a1, a2] at ha
    rw [blue_zero, blue_zero, (sample_words _).1, (sample_words _).2, b1, b2] at hb
    simp only [yoffset, ygain] at ha hb
    norm_num at ha hb
    rw [← hb] at ha
    norm_num at ha
  · rintro ⟨g, hg⟩
    have ha := hg (fun off => if off = 0 then 537051648 else 0) 1920 0 0 2 (by norm_num)
    have hb := hg (fun off => if off = 0 then 536871521 else 0) 1920 0 0 2 (by norm_num)
    rw [blue_zero, blue_zero, (sample_words _).1, (sample_words _).2, c1, c2] at ha
    rw [blue_zero, blue_zero, (sample_words _).1, (sample_words _).2, d1, d2] at hb
    simp only [yoffset, ygain] at ha hb
    norm_num at ha hb
    rw [← hb] at ha
    norm_num at ha

/-- C6, amended: for every chunk, each of the eighteen limited-range values is the
full-range value of the same pixel and channel plus
`(1.164 * (Y - 64) - 1.0 * (Y - 0)) / 1023`, where `Y` is the luma sample of that pixel,
and the full-range value is the limited-range one minus the same term: the two outputs
are related by the offset/gain substitution applied to the luma sample, not by a
function of the output component alone. -/
theorem luma_toggle (value : Int) (hv : value ≠ 0) (s : Samples) (n : Int × Int) :
    chunkRGB (yoffset 0) (ygain 0) s n =
      List.zipWith (fun v y => v + (1.164 * (y - 64) - 1.0 * (y - 0)) / 1023)
        (chunkRGB (yoffset value) (ygain value) s n) (lumaOf s) ∧
    chunkRGB (yoffset value) (ygain value) s n =
      List.zipWith (fun v y => v - (1.164 * (y - 64) - 1.0 * (y - 0)) / 1023)
        (chunkRGB (yoffset 0) (ygain 0) s n) (lumaOf s) := by
  simp only [chunkRGB, lumaOf, yoffset, ygain, hv, ne_eq, not_true_eq_false, not_false_eq_true,
    if_true, if_false, List.zipWith_cons_cons, List.zipWith_nil_right, List.cons.injEq,
    and_true]
  refine ⟨⟨?_, ?_, ?_, ?_, ?_, ?_, ?_, ?_, ?_, ?_, ?_, ?_, ?_, ?_, ?_, ?_, ?_, ?_⟩,
    ⟨?_, ?_, ?_, ?_, ?_, ?_, ?_, ?_, ?_, ?_, ?_, ?_, ?_, ?_, ?_, ?_, ?_, ?_⟩⟩ <;> ring

theorem luma_toggle_witness :
    (1 : Int) ≠ 0 ∧
      chunkRGB (yoffset 0) (ygain 0) (solid 264 512 512) (512, 512) =
        List.zipWith (fun v y => v + (1.164 * (y - 64) - 1.0 * (y - 0)) / 1023)
          (chunkRGB (yoffset 1) (ygain 1) (solid 264 512 512) (512, 512))
          (lumaOf (solid 264 512 512)) :=
  ⟨by decide, (luma_toggle 1 (by decide) (solid 264 512 512) (512, 512)).1⟩

/-! ## Instance coordination -/

/-- After `startHDMI` the control struct is streaming exactly when every step succeeded. -/
theorem startHDMI_streaming_iff (e : Env) (g : Inst) (W : World) (name : String)
    (hn : g.shmfile = some name) :
    (startHDMI e g W).2.streaming (startHDMI e g W).1.cbctrl = true ↔
      (e.shmCreate = true ∧ e.mmap = true ∧ e.next = true ∧ e.enable = true ∧
        e.start = true) := by
  cases h1 : e.shmCreate <;> cases h2 : e.mmap <;> cases h3 : e.next <;>
    cases h4 : e.enable <;> cases h5 : e.start <;> cases hd : g.dlin <;>
    simp [startHDMI, stopHDMI, World.say, hn, hd, h1, h2, h3, h4, h5]

/-- On the three device failures `startHDMI` goes through `stopHDMI`: the segment is
unlinked, and the streams are stopped and the input disabled once the device is open. -/
theorem startHDMI_device_failure (e : Env) (g : Inst) (W : World) (name : String)
    (hn : g.shmfile = some name) (hd : g.dlin = false)
    (h1 : e.shmCreate = true) (h2 : e.mmap = true)
    (hfail : e.next = false ∨ e.enable = false ∨ e.start = false) :
    (startHDMI e g W).2.shm name = none ∧
    (startHDMI e g W).1.shmfile = none ∧
    (startHDMI e g W).2.streaming (startHDMI e g W).1.cbctrl = false ∧
    (e.next = true →
      [DevCall.StopStreams, DevCall.DisableVideoInput] <:+ (startHDMI e g W).2.device) := by
  cases h3 : e.next <;> cases h4 : e.enable <;> cases h5 : e.start <;>
    simp [startHDMI, stopHDMI, World.say, hn, hd, h1, h2, h3, h4, h5] at hfail ⊢ <;>
    exact (show _ <:+ _ by decide).trans (List.suffix_append _ _)

/-- C9, failing input: `shm_open` succeeds and `mmap` fails.  `startHDMI` returns without
going through `stopHDMI`: the segment stays linked and holds a `NULL` pointer, and
`shmfile` is still set, whereas on a device failure (here `Next`) the segment is
unlinked.  An instance initialised afterwards finds the segment and takes `NULL` as its
control struct, and so does the failed instance itself on its next `SparkProcess`, which
then dereferences `NULL`. -/
theorem startHDMI_mmap_failure :
    (startHDMI { Env.ok with mmap := false } { Inst.fresh with shmfile := some (shmName 7) }
        World.init).2.shm (shmName 7) = some 0 ∧
    (startHDMI { Env.ok with mmap := false } { Inst.fresh with shmfile := some (shmName 7) }
        World.init).1.shmfile = some (shmName 7) ∧
    (startHDMI { Env.ok with next := false } { Inst.fresh with shmfile := some (shmName 7) }
        World.init).2.shm (shmName 7) = none ∧
    (initAll ⟨8, 1920, 1080⟩ 7 [{ Env.ok with mmap := false }, Env.ok] World.init).2.shm
        (shmName 7) = some 0 ∧
    (initAll ⟨8, 1920, 1080⟩ 7 [{ Env.ok with mmap := false }, Env.ok] World.init).1.map
        Inst.cbctrl = [1, 0] ∧
    (∀ (L : Nat) (host : Option Nat),
      SparkProcess L ⟨8, 1920, 1080⟩ 7 Env.ok host
        (SparkInitialise ⟨8, 1920, 1080⟩ 7 { Env.ok with mmap := false } Inst.fresh
          World.init).1
        (SparkInitialise ⟨8, 1920, 1080⟩ 7 { Env.ok with mmap := false } Inst.fresh
          World.init).2 = none) := by
  simp [initAll, SparkProcess, SparkInitialise, startHDMI, stopHDMI, World.say, World.init,
    Inst.fresh, Env.ok]

/-- On a streaming 1920x1080 instance `SparkProcess` forks a conversion worker whatever
`sparkMemGetBuffer` answers. -/
theorem process_ignores_sparkBuf (L : Nat) (si : SparkInfoStruct) (pid : Nat) (e : Env)
    (host : Option Nat) (g : Inst) (W : World) (hw : g.w = 1920) (hh : g.h = 1080)
    (hc : g.cbctrl ≠ 0) (hs : W.streaming g.cbctrl = true) :
    (SparkProcess L si pid e host g W).map (fun r => r.2.forks) =
      some (W.forks ++ [if g.f16support then Worker.threadProcF16C else Worker.threadProc]) := by
  cases host with
  | none => simp [SparkProcess, sparkBuf, World.say, hw, hh, hc, hs]
  | some st =>
    by_cases hl : st &&& L = 0 <;> simp [SparkProcess, sparkBuf, World.say, hw, hh, hc, hs, hl]

/-- C7, failing input: after a successful `SparkInitialise`, `sparkMemGetBuffer` fails, or
gives a buffer that is not locked (`BufState = 0`).  `sparkBuf` returns 0 and
`SparkProcess` forks `threadProcF16C` all the same. -/
theorem process_forks_on_failed_buffer (L : Nat) :
    (sparkBuf L none (SparkInitialise ⟨8, 1920, 1080⟩ 7 Env.ok Inst.fresh World.init).2).1 = 0 ∧
    (sparkBuf L (some 0)
      (SparkInitialise ⟨8, 1920, 1080⟩ 7 Env.ok Inst.fresh World.init).2).1 = 0 ∧
    (SparkProcess L ⟨8, 1920, 1080⟩ 7 Env.ok none
      (SparkInitialise ⟨8, 1920, 1080⟩ 7 Env.ok Inst.fresh World.init).1
      (SparkInitialise ⟨8, 1920, 1080⟩ 7 Env.ok Inst.fresh World.init).2).map
        (fun r => r.2.forks) = some [Worker.threadProcF16C] ∧
    (SparkProcess L ⟨8, 1920, 1080⟩ 7 Env.ok (some 0)
      (SparkInitialise ⟨8, 1920, 1080⟩ 7 Env.ok Inst.fresh World.init).1
      (SparkInitialise ⟨8, 1920, 1080⟩ 7 Env.ok Inst.fresh World.init).2).map
        (fun r => r.2.forks) = some [Worker.threadProcF16C] := by
  simp [SparkProcess, sparkBuf, SparkInitialise, startHDMI, World.say, World.init, Inst.fresh,
    Env.ok]

end HDMIsupply
